import Mathlib

/-!
Verification of the qt5 build-tool extension (waflib/Tools/qt5.py).

The development shallowly embeds the parts of `qt5.py` that the claims are
about: the `qxx` compiled-source task (`runnable_status`, `create_moc_task`,
`add_moc_tasks`), the explicit-moc hook `process_mocs`, the `.qrc` SAX
handler `XMLHandler`, and `qm2rcc.run`.  The generic build engine
(`waflib/Node.py`, `waflib/Task.py`, the scheduler) is not part of the
source tree; the few operations the claims depend on (`find_node`,
`change_ext`, the base `Task.runnable_status`, `hasrun`, `signature`) are
modelled from the spec, as marked on each definition.
-/

/-- A file-system node, as consumed from the build engine: a directory
(identified by its path string) plus a file name.  Directories themselves
are identified by their path string alone. -/
structure Node where
  dir : String
  name : String
deriving DecidableEq, Repr

/-- Index of the last occurrence of a dot in a character list
(Python `str.rfind('.')`, with `none` standing for the result `-1`). -/
def lastDotIdx : List Char → Option Nat
  | [] => none
  | c :: rest =>
      match lastDotIdx rest with
      | some i => some (i + 1)
      | none => if c = '.' then some 0 else none

/-- Python `name[:name.rfind('.')]`, as used at qt5.py:237 and qt5.py:324.
When the name contains a dot this is the part before the last dot; when it
does not, `rfind` returns `-1` and the negative slice drops the final
character. -/
def pyStem (s : String) : String :=
  match lastDotIdx s.data with
  | some i => String.mk (s.data.take i)
  | none => String.mk s.data.dropLast

/-- Python `d.endswith('.moc')` (qt5.py:224): the final four characters
are `.moc`. -/
def pyEndsMoc (d : String) : Bool :=
  decide (d.data.reverse.take 4 = ".moc".data.reverse)

/-- Python `d[:-4]` (qt5.py:234): drop the last four characters (empty
when the string is that short or shorter). -/
def pyDropRight4 (s : String) : String :=
  String.mk (s.data.take (s.data.length - 4))

/-- Modelled from the spec: the engine Node's `change_ext`, deriving a
sibling path by replacing the extension (everything from the last dot on)
with `ext`; a name with no dot gets `ext` appended. -/
def changeExt (n : Node) (ext : String) : Node :=
  match lastDotIdx n.name.data with
  | some i => ⟨n.dir, String.mk (n.name.data.take i) ++ ext⟩
  | none => ⟨n.dir, n.name ++ ext⟩

/-- A file system, modelled from the spec: the engine Node's `find_node`
restricted to what the core uses — looking a file name up in a directory,
returning the found node or nothing. -/
def Fsys : Type := String → String → Option Node

/-- Lookup in the moc cache (a Python dict keyed on the header Node,
represented as an association list). -/
def lookupNode : List (Node × Nat) → Node → Option Nat
  | [], _ => none
  | p :: rest, h => if p.1 = h then some p.2 else lookupNode rest h

/-- The build-wide mutable state touched by `create_moc_task`
(qt5.py:169-200): the moc cache `bld.moc_cache`, the created moc tasks
(task ids are allocated from `nextId`; each record keeps the task's input
header and output node), the owning generators' task lists (pooled into one
list — the claims do not distinguish which generator registers a task), the
scheduler producer's `outstanding` deque (head = front) and its `total`
counter, and the set of task ids whose `hasrun` flag is truthy. -/
structure BuildState where
  mocCache : List (Node × Nat)
  mocTasks : List (Nat × Node × Node)
  nextId : Nat
  genTasks : List Nat
  outstanding : List Nat
  total : Nat
  hasrunList : List Nat
deriving Repr

/-- Modelled from the spec: truthiness of a task's `hasrun` counter
("every task this instance currently depends on has completed"). -/
def hasrun (s : BuildState) (t : Nat) : Bool :=
  s.hasrunList.contains t

/-- The per-instance state of one `qxx` task: its single input node
(`self.inputs[0]`), the build unit's declared include directories
(`self.generator.includes_nodes`), the scanner's raw dependency list
(`bld.raw_deps[self.uid()]`), the `run_after` predecessor set (a set of
task ids, represented as a list up to membership), the `moc_done` flag and
the optional `cache_sig` attribute (signature values abstracted as `Nat`). -/
structure Qxx where
  node : Node
  includesNodes : List String
  rawDeps : List String
  runAfter : List Nat
  mocDone : Nat
  cacheSig : Option Nat
deriving Repr

/-- `qxx.create_moc_task` (qt5.py:169-200).  On a cache hit the `try`
block's `return moc_cache[h_node]` exits the method, so the `else` clause
holding `delattr(self, 'cache_sig')` (qt5.py:198-200) never executes: a
`try` statement's `else` clause only runs when control flows off the end of
the `try` suite.  The method therefore never mutates the calling task; `q`
is threaded through unchanged.  On a miss a fresh moc task is constructed
(its env handling, `MOC_FLAGS` `-i`, is not observable by any claim and is
not modelled), registered in the generator's task list, and injected at the
front of the producer's `outstanding` deque while `total` is bumped. -/
def createMocTask (q : Qxx) (s : BuildState) (h m : Node) : Nat × Qxx × BuildState :=
  match lookupNode s.mocCache h with
  | some tid => (tid, q, s)
  | none =>
      (s.nextId, q,
        { s with
          mocCache := (h, s.nextId) :: s.mocCache
          mocTasks := s.mocTasks ++ [(s.nextId, h, m)]
          nextId := s.nextId + 1
          genTasks := s.genTasks ++ [s.nextId]
          outstanding := s.nextId :: s.outstanding
          total := s.total + 1 })

/-- The fixed header-extension search order `MOC_H` (qt5.py:82). -/
def MOC_H : List String := [".h", ".hpp", ".hxx", ".hh"]

/-- The inner loop of the header search (qt5.py:243-250): try each
extension in `MOC_H` order against one directory, first hit wins. -/
def searchExts (fsys : Fsys) (x : String) (base2 : String) : List String → Option Node
  | [] => none
  | e :: es =>
      match fsys x (base2 ++ e) with
      | some h => some h
      | none => searchExts fsys x base2 es

/-- The outer loop of the header search (qt5.py:243-250): try each
directory of `include_nodes` in order; within a directory, extensions in
`MOC_H` order; first existing file wins (the `for`/`else`/`break` nest in
the source has exactly this net behaviour). -/
def searchDirs (fsys : Fsys) (base2 : String) : List String → Option Node
  | [] => none
  | x :: xs =>
      match searchExts fsys x base2 MOC_H with
      | some h => some h
      | none => searchDirs fsys base2 xs

/-- Directive-to-header resolution (qt5.py:232-250): `base2 = d[:-4]`;
if it equals the compiled source's own stem the source node itself is the
moc input, otherwise the directories of `incNodes` (built by the caller as
`[node.parent] + includes_nodes`, qt5.py:219) are searched. -/
def resolveMoc (fsys : Fsys) (node : Node) (incNodes : List String) (d : String) : Option Node :=
  let base2 := pyDropRight4 d
  if base2 = pyStem node.name then some node
  else searchDirs fsys base2 incNodes

/-- Single-quote character, used to render the message Python `%r` produces. -/
def pyQuote : String := String.singleton (Char.ofNat 39)

/-- The fatal message of qt5.py:254,
`Errors.WafError('No source found for %r which is a moc file' % d)`;
`%r` on a plain name renders it in single quotes. -/
def mocErrMsg (d : String) : String :=
  "No source found for " ++ pyQuote ++ d ++ pyQuote ++ " which is a moc file"

/-- Result of the directive loop of `add_moc_tasks`: the raised error (if
any), the `mocfiles` dedup set, the collected `moctasks` list, and the
caller/build state as mutated so far (Python leaves all mutations made
before an exception in place). -/
structure LoopRes where
  err : Option String
  seen : List String
  tasks : List Nat
  q : Qxx
  s : BuildState
deriving Repr

/-- The directive loop of `add_moc_tasks` (qt5.py:223-258): skip entries
not ending in `.moc`; dedup on the raw string via `mocfiles`; resolve the
directive to a header node; on failure raise the fatal error immediately
(earlier iterations' effects stay); on success create (or fetch from the
cache) the moc task for the header, with output `change_ext('.moc')`, and
collect it. -/
def mocLoop (fsys : Fsys) (incNodes : List String) :
    List String → List String → List Nat → Qxx → BuildState → LoopRes
  | [], seen, ms, q, s => ⟨none, seen, ms, q, s⟩
  | d :: ds, seen, ms, q, s =>
      if pyEndsMoc d = false then mocLoop fsys incNodes ds seen ms q s
      else if seen.contains d then mocLoop fsys incNodes ds seen ms q s
      else
        match resolveMoc fsys q.node incNodes d with
        | some h =>
            let r := createMocTask q s h (changeExt h ".moc")
            mocLoop fsys incNodes ds (d :: seen) (ms ++ [r.1]) r.2.1 r.2.2
        | none => ⟨some (mocErrMsg d), d :: seen, ms, q, s⟩

/-- The signature dance at the top of `add_moc_tasks` (qt5.py:209-217):
`self.signature()` is engine code (modelled from the spec: it computes and
caches the content signature, triggering the scan); when it succeeds the
`else` clause deletes `cache_sig`, when it raises `KeyError` nothing
changes.  `sigOk` abstracts which of the two happened. -/
def sigClear (sigOk : Bool) (q : Qxx) : Qxx :=
  if sigOk then { q with cacheSig := none } else q

/-- `qxx.add_moc_tasks` (qt5.py:202-262): signature dance, then the
directive loop over `bld.raw_deps[self.uid()]` with
`include_nodes = [node.parent] + includes_nodes`; on success the collected
moc tasks are added to `run_after` (`set.update`, modelled as list append —
`run_after` is a set, only membership is ever consulted) and `moc_done` is
set to `1`; a raised error propagates with the state mutated so far. -/
def addMocTasks (fsys : Fsys) (sigOk : Bool) (q : Qxx) (s : BuildState) :
    Option String × Qxx × BuildState :=
  let q1 := sigClear sigOk q
  let r := mocLoop fsys (q1.node.dir :: q1.includesNodes) q1.rawDeps [] [] q1 s
  match r.err with
  | some e => (some e, r.q, r.s)
  | none => (none, { r.q with runAfter := r.q.runAfter ++ r.tasks, mocDone := 1 }, r.s)

/-- The three runnable-status answers the claims distinguish. -/
inductive TStatus where
  | askLater
  | runMe
  | skipMe
deriving DecidableEq, Repr

/-- Modelled from the spec: the base `Task.runnable_status` of the engine —
report the ask-again-later deferral while some `run_after` predecessor has
not completed, otherwise decide between run and skip by signature
comparison, abstracted by the `stale` flag. -/
def baseRunnableStatus (s : BuildState) (q : Qxx) (stale : Bool) : TStatus :=
  if q.runAfter.any (fun t => !(hasrun s t)) then TStatus.askLater
  else if stale then TStatus.runMe else TStatus.skipMe

/-- `qxx.runnable_status` (qt5.py:154-167): with `moc_done` truthy delegate
to the base task; otherwise defer while any current predecessor has not
run; once all have, run `add_moc_tasks` and delegate to the base task
(whose own `run_after` check sees the newly added predecessors).  An error
raised by `add_moc_tasks` propagates. -/
def qxxRunnableStatus (fsys : Fsys) (sigOk stale : Bool) (q : Qxx) (s : BuildState) :
    Except String (TStatus × Qxx × BuildState) :=
  if q.mocDone ≠ 0 then Except.ok (baseRunnableStatus s q stale, q, s)
  else if q.runAfter.any (fun t => !(hasrun s t)) then Except.ok (TStatus.askLater, q, s)
  else
    match addMocTasks fsys sigOk q s with
    | (some e, _, _) => Except.error e
    | (none, q', s') => Except.ok (baseRunnableStatus s' q' stale, q', s')

/-- A sequence of `create_moc_task` calls issued by (possibly distinct)
`qxx` tasks against one shared build state; returns the task each call
obtained, in call order, together with the final state. -/
def runCalls : List (Qxx × Node × Node) → BuildState → List Nat × BuildState
  | [], s => ([], s)
  | c :: cs, s =>
      let r := createMocTask c.1 s c.2.1 c.2.2
      let rest := runCalls cs r.2.2
      (r.1 :: rest.1, rest.2)

/-- The generated-source file name computed by `process_mocs`
(qt5.py:324-325): `'moc_%s.%d.cpp' % (prefix, self.idx)` with
`prefix = x.name[:x.name.rfind('.')]`. -/
def mocTargetName (x : Node) (idx : Nat) : String :=
  "moc_" ++ pyStem x.name ++ "." ++ toString idx ++ ".cpp"

/-- `process_mocs` (qt5.py:309-329): for each header listed in the unit's
`moc` attribute, append the computed target name to the unit's source list
and immediately create a moc task from the header to
`x.parent.find_or_declare(moc_target)` (modelled from the spec as the node
with that name in the header's directory).  The tasks are created directly
through `create_task`, never through the moc cache — the function neither
reads nor writes any `BuildState`.  Returns the extended source list and
the created (input, output) task pairs in declaration order. -/
def process_mocs (idx : Nat) : List Node → List String → List String × List (Node × Node)
  | [], source => (source, [])
  | x :: xs, source =>
      let tgt := mocTargetName x idx
      let rest := process_mocs idx xs (source ++ [tgt])
      (rest.1, (x, ⟨x.dir, tgt⟩) :: rest.2)

/-- SAX events delivered to the `.qrc` content handler: element start (with
its attributes), element end, character data (possibly one of several
chunks for the same text). -/
inductive SaxEvent where
  | startEl (name : String) (attrs : List (String × String))
  | endEl (name : String)
  | chars (s : String)
deriving DecidableEq, Repr

/-- The mutable state of `XMLHandler` (qt5.py:270-284): the chunk buffer
`self.buf` and the collected paths `self.files`. -/
structure HState where
  buf : List String
  files : List String
deriving DecidableEq, Repr

/-- One event step of `XMLHandler` (qt5.py:277-284): `startElement` resets
the buffer on a `file` element and ignores everything else (attributes
included); `endElement` of a `file` element appends the joined buffer to
the path list; `characters` appends the chunk to the buffer. -/
def saxStep (st : HState) : SaxEvent → HState
  | SaxEvent.startEl n _ => if n = "file" then { st with buf := [] } else st
  | SaxEvent.endEl n =>
      if n = "file" then { st with files := st.files ++ [String.join st.buf] } else st
  | SaxEvent.chars c => { st with buf := st.buf ++ [c] }

/-- Run the handler over a whole event stream. -/
def processEvents : List SaxEvent → HState → HState
  | [], st => st
  | ev :: evs, st => processEvents evs (saxStep st ev)

mutual
/-- An XML document tree: text chunks and elements with attributes. -/
inductive XTree where
  | text : String → XTree
  | elem : String → List (String × String) → XForest → XTree
/-- A sequence of sibling XML trees. -/
inductive XForest where
  | nil : XForest
  | cons : XTree → XForest → XForest
end

mutual
/-- The SAX event stream a parser delivers for a tree: start, the events of
the children in order, end; a text chunk is one `characters` event. -/
def emitT : XTree → List SaxEvent
  | XTree.text s => [SaxEvent.chars s]
  | XTree.elem n a c => SaxEvent.startEl n a :: (emitF c ++ [SaxEvent.endEl n])
def emitF : XForest → List SaxEvent
  | XForest.nil => []
  | XForest.cons t rest => emitT t ++ emitF rest
end

mutual
/-- All character chunks below a tree, in document order. -/
def textsT : XTree → List String
  | XTree.text s => [s]
  | XTree.elem _ _ c => textsF c
def textsF : XForest → List String
  | XForest.nil => []
  | XForest.cons t rest => textsT t ++ textsF rest
end

mutual
/-- No `file` element occurs anywhere below. -/
def fileFreeT : XTree → Bool
  | XTree.text _ => true
  | XTree.elem n _ c => (!(n = "file" : Bool)) && fileFreeF c
def fileFreeF : XForest → Bool
  | XForest.nil => true
  | XForest.cons t rest => fileFreeT t && fileFreeF rest
end

mutual
/-- A well-formed resource manifest: `file` elements are entries, never
nested inside one another (in the `.qrc` format a `file` element holds a
relative path as text, so no `file` element contains another). -/
def wfT : XTree → Bool
  | XTree.text _ => true
  | XTree.elem n _ c => if n = "file" then fileFreeF c else wfF c
def wfF : XForest → Bool
  | XForest.nil => true
  | XForest.cons t rest => wfT t && wfF rest
end

mutual
/-- The paths the spec promises: one string per `file` element, in document
order, each the concatenation of all character chunks delivered between
that element's start and end events (chunks inside ignored nested elements
included). -/
def specFilesT : XTree → List String
  | XTree.text _ => []
  | XTree.elem n _ c => if n = "file" then [String.join (textsF c)] else specFilesF c
def specFilesF : XForest → List String
  | XForest.nil => []
  | XForest.cons t rest => specFilesT t ++ specFilesF rest
end

mutual
/-- The buffer contents after the handler has consumed a tree's events,
starting from buffer `b` (helper for the correctness proof): a `file`
element leaves behind its own collected chunks, any other element passes
the buffer through while accumulating chunks. -/
def bufAfterT : XTree → List String → List String
  | XTree.text s, b => b ++ [s]
  | XTree.elem n _ c, b => if n = "file" then bufAfterF c [] else bufAfterF c b
def bufAfterF : XForest → List String → List String
  | XForest.nil, b => b
  | XForest.cons t rest, b => bufAfterF rest (bufAfterT t b)
end

/-- `qm2rcc.run` (qt5.py:446-457): synthesize the embedded-catalog manifest
text from the inputs' paths relative to the output's directory — one
`<file>` line per catalog joined by newlines, wrapped in the fixed RCC
skeleton — and write it to the output. -/
def qm2rccRun (paths : List String) : String :=
  let txt := String.intercalate "\n" (paths.map (fun k => "<file>" ++ k ++ "</file>"))
  "<!DOCTYPE RCC><RCC version=\"1.0\">\n<qresource>\n" ++ txt ++ "\n</qresource>\n</RCC>"

/-- The empty build state at the start of a build. -/
def s0 : BuildState := ⟨[], [], 0, [], [], 0, []⟩

/-- A file system with no files at all. -/
def fsNone : Fsys := fun _ _ => none

/-- A file system holding `inc1/foo.hpp`, `inc1/foo.hxx` and `inc2/foo.h`. -/
def fsC5 : Fsys := fun dir name =>
  if dir = "inc1" ∧ name = "foo.hpp" then some ⟨"inc1", "foo.hpp"⟩
  else if dir = "inc1" ∧ name = "foo.hxx" then some ⟨"inc1", "foo.hxx"⟩
  else if dir = "inc2" ∧ name = "foo.h" then some ⟨"inc2", "foo.h"⟩
  else none

/-- A file system holding only `src/foo.h`. -/
def fsC3 : Fsys := fun dir name =>
  if dir = "src" ∧ name = "foo.h" then some ⟨"src", "foo.h"⟩ else none

/-- A file system holding only `src/a.h`. -/
def fsC10 : Fsys := fun dir name =>
  if dir = "src" ∧ name = "a.h" then some ⟨"src", "a.h"⟩ else none

/-- A compiled-source task whose scan found no directives at all. -/
def qNoDeps : Qxx := ⟨⟨"src", "main.cpp"⟩, [], [], [], 0, some 3⟩

/-- A compiled-source task whose scan found the directive `foo.moc`. -/
def qFooMoc : Qxx := ⟨⟨"src", "main.cpp"⟩, [], ["foo.moc"], [], 0, some 3⟩

/-- A compiled-source task whose scan found `a.moc` then `b.moc`. -/
def qAB : Qxx := ⟨⟨"src", "main.cpp"⟩, [], ["a.moc", "b.moc"], [], 0, some 5⟩

/-- A compiled-source task whose scan found the unresolvable `nope.moc`. -/
def qNope : Qxx := ⟨⟨"src", "main.cpp"⟩, [], ["nope.moc"], [], 0, some 3⟩

/-- A compiled-source task `src/bar.cpp` holding a cached signature. -/
def qBar : Qxx := ⟨⟨"src", "bar.cpp"⟩, [], ["foo.moc"], [], 0, some 7⟩

/-- A build state whose moc cache already holds a task 0 for `src/foo.h`. -/
def sHit : BuildState :=
  ⟨[(⟨"src", "foo.h"⟩, 0)], [(0, ⟨"src", "foo.h"⟩, ⟨"src", "foo.moc"⟩)], 1, [0], [], 1, []⟩

/-- The directive-loop result for `qFooMoc` against `fsC3` from `s0`:
one moc task (id 0) for `src/foo.h` was created. -/
def rFoo : LoopRes :=
  ⟨none, ["foo.moc"], [0],
   ⟨⟨"src", "main.cpp"⟩, [], ["foo.moc"], [], 0, none⟩,
   ⟨[(⟨"src", "foo.h"⟩, 0)], [(0, ⟨"src", "foo.h"⟩, ⟨"src", "foo.moc"⟩)], 1, [0], [0], 1, []⟩⟩

/-- A dummy requesting task for exercising the cache across callers. -/
def qDummy : Qxx := ⟨⟨"src", "x.cpp"⟩, [], [], [], 0, none⟩

/-- Calls issued before the first call with key `src/a.h`: one other key. -/
def preCalls : List (Qxx × Node × Node) :=
  [(qDummy, ⟨"src", "b.h"⟩, ⟨"src", "b.moc"⟩)]

/-- Calls issued afterwards: another key, then `src/a.h` again. -/
def postCalls : List (Qxx × Node × Node) :=
  [(qDummy, ⟨"src", "c.h"⟩, ⟨"src", "c.moc"⟩), (qDummy, ⟨"src", "a.h"⟩, ⟨"src", "a.moc"⟩)]

/-- A concrete resource manifest:
`<RCC><qresource><file>a.png</file><file>sub/b.png</file></qresource></RCC>`,
with the second path delivered in two character chunks. -/
def qrcW : XTree :=
  XTree.elem "RCC" []
    (XForest.cons
      (XTree.elem "qresource" []
        (XForest.cons
          (XTree.elem "file" [] (XForest.cons (XTree.text "a.png") XForest.nil))
          (XForest.cons
            (XTree.elem "file" []
              (XForest.cons (XTree.text "sub/") (XForest.cons (XTree.text "b.png") XForest.nil)))
            XForest.nil)))
      XForest.nil)

/-- Well-formedness of the build state: every task id recorded anywhere is
below the allocation counter (true of every state the build engine can
reach, and preserved by all operations here). -/
def WFState (s : BuildState) : Prop :=
  (∀ t ∈ s.genTasks, t < s.nextId) ∧ (∀ p ∈ s.mocCache, p.2 < s.nextId) ∧
  (∀ t ∈ s.outstanding, t < s.nextId) ∧ (∀ t ∈ s.hasrunList, t < s.nextId) ∧
  (∀ r ∈ s.mocTasks, r.1 < s.nextId)

/-- `s'` extends `s` by creating exactly the moc tasks `new` (in creation
order): they sit at the front of the outstanding queue, the total and the
allocator moved by their number, the generator task list grew by them, the
run set is untouched, the cache and task records only grew, and every
created task is present in the cache and the task records. -/
def ExtendsBy (s s' : BuildState) (new : List Nat) : Prop :=
  s'.outstanding = new.reverse ++ s.outstanding ∧
  s'.total = s.total + new.length ∧
  s'.genTasks = s.genTasks ++ new ∧
  s'.nextId = s.nextId + new.length ∧
  s'.hasrunList = s.hasrunList ∧
  (∀ h t, lookupNode s.mocCache h = some t → lookupNode s'.mocCache h = some t) ∧
  (∀ r ∈ s.mocTasks, r ∈ s'.mocTasks) ∧
  (∀ t ∈ new, ∃ hn mn, lookupNode s'.mocCache hn = some t ∧ (t, hn, mn) ∈ s'.mocTasks)

theorem lookupNode_cons_self (rest : List (Node × Nat)) (h : Node) (t : Nat) :
    lookupNode ((h, t) :: rest) h = some t := by
  simp [lookupNode]

theorem createMocTask_hit (q : Qxx) (s : BuildState) (h m : Node) {t : Nat}
    (hc : lookupNode s.mocCache h = some t) :
    createMocTask q s h m = (t, q, s) := by
  simp [createMocTask, hc]

theorem createMocTask_miss (q : Qxx) (s : BuildState) (h m : Node)
    (hc : lookupNode s.mocCache h = none) :
    createMocTask q s h m =
      (s.nextId, q,
        { s with
          mocCache := (h, s.nextId) :: s.mocCache
          mocTasks := s.mocTasks ++ [(s.nextId, h, m)]
          nextId := s.nextId + 1
          genTasks := s.genTasks ++ [s.nextId]
          outstanding := s.nextId :: s.outstanding
          total := s.total + 1 }) := by
  simp [createMocTask, hc]

theorem createMocTask_q (q : Qxx) (s : BuildState) (h m : Node) :
    (createMocTask q s h m).2.1 = q := by
  cases hc : lookupNode s.mocCache h with
  | some t => rw [createMocTask_hit q s h m hc]
  | none => rw [createMocTask_miss q s h m hc]

theorem createMocTask_cache_mono (q : Qxx) (s : BuildState) (h m : Node) {h' : Node} {t : Nat}
    (hl : lookupNode s.mocCache h' = some t) :
    lookupNode (createMocTask q s h m).2.2.mocCache h' = some t := by
  cases hc : lookupNode s.mocCache h with
  | some tid => rw [createMocTask_hit q s h m hc]; exact hl
  | none =>
      rw [createMocTask_miss q s h m hc]
      by_cases he : h = h'
      · subst he; rw [hl] at hc; cases hc
      · simpa [lookupNode, he] using hl

theorem createMocTask_cache_none (q : Qxx) (s : BuildState) (h m : Node) {h' : Node}
    (hne : h ≠ h') (hl : lookupNode s.mocCache h' = none) :
    lookupNode (createMocTask q s h m).2.2.mocCache h' = none := by
  cases hc : lookupNode s.mocCache h with
  | some tid => rw [createMocTask_hit q s h m hc]; exact hl
  | none =>
      rw [createMocTask_miss q s h m hc]
      simpa [lookupNode, hne] using hl

theorem createMocTask_cache_self (q : Qxx) (s : BuildState) (h m : Node) :
    lookupNode (createMocTask q s h m).2.2.mocCache h = some (createMocTask q s h m).1 := by
  cases hc : lookupNode s.mocCache h with
  | some tid => rw [createMocTask_hit q s h m hc]; exact hc
  | none => rw [createMocTask_miss q s h m hc]; exact lookupNode_cons_self _ _ _

theorem createMocTask_wf (q : Qxx) (s : BuildState) (h m : Node) (hw : WFState s) :
    WFState (createMocTask q s h m).2.2 := by
  cases hc : lookupNode s.mocCache h with
  | some tid => rw [createMocTask_hit q s h m hc]; exact hw
  | none =>
      rw [createMocTask_miss q s h m hc]
      obtain ⟨w1, w2, w3, w4, w5⟩ := hw
      refine ⟨?_, ?_, ?_, ?_, ?_⟩
      · intro t ht
        rcases List.mem_append.mp ht with ht | ht
        · exact Nat.lt_trans (w1 t ht) (Nat.lt_succ_self _)
        · simp at ht; subst ht; exact Nat.lt_succ_self _
      · intro p hp
        rcases List.mem_cons.mp hp with hp | hp
        · subst hp; exact Nat.lt_succ_self _
        · exact Nat.lt_trans (w2 p hp) (Nat.lt_succ_self _)
      · intro t ht
        rcases List.mem_cons.mp ht with ht | ht
        · subst ht; exact Nat.lt_succ_self _
        · exact Nat.lt_trans (w3 t ht) (Nat.lt_succ_self _)
      · intro t ht
        exact Nat.lt_trans (w4 t ht) (Nat.lt_succ_self _)
      · intro r hr
        rcases List.mem_append.mp hr with hr | hr
        · exact Nat.lt_trans (w5 r hr) (Nat.lt_succ_self _)
        · simp at hr; subst hr; exact Nat.lt_succ_self _

theorem ExtendsBy_rfl (s : BuildState) : ExtendsBy s s [] := by
  exact ⟨by simp, by simp, by simp, by simp, rfl, fun _ _ ht => ht, fun _ hr => hr, by simp⟩

theorem ExtendsBy_trans {s₁ s₂ s₃ : BuildState} {n₁ n₂ : List Nat}
    (e₁ : ExtendsBy s₁ s₂ n₁) (e₂ : ExtendsBy s₂ s₃ n₂) : ExtendsBy s₁ s₃ (n₁ ++ n₂) := by
  obtain ⟨a1, a2, a3, a4, a5, a6, a7, a8⟩ := e₁
  obtain ⟨b1, b2, b3, b4, b5, b6, b7, b8⟩ := e₂
  refine ⟨?_, ?_, ?_, ?_, ?_, ?_, ?_, ?_⟩
  · rw [b1, a1, List.reverse_append, List.append_assoc]
  · rw [b2, a2, List.length_append]; omega
  · rw [b3, a3, List.append_assoc]
  · rw [b4, a4, List.length_append]; omega
  · rw [b5, a5]
  · exact fun h t ht => b6 h t (a6 h t ht)
  · exact fun r hr => b7 r (a7 r hr)
  · intro t ht
    rcases List.mem_append.mp ht with ht | ht
    · obtain ⟨hn, mn, hl, hm⟩ := a8 t ht
      exact ⟨hn, mn, b6 hn t hl, b7 _ hm⟩
    · exact b8 t ht

theorem createMocTask_extends (q : Qxx) (s : BuildState) (h m : Node) :
    ∃ new, ExtendsBy s (createMocTask q s h m).2.2 new := by
  cases hc : lookupNode s.mocCache h with
  | some tid =>
      refine ⟨[], ?_⟩
      rw [createMocTask_hit q s h m hc]
      exact ExtendsBy_rfl s
  | none =>
      refine ⟨[s.nextId], ?_⟩
      rw [createMocTask_miss q s h m hc]
      refine ⟨by simp, by simp, by simp, by simp, rfl, ?_, ?_, ?_⟩
      · intro h' t hl
        by_cases he : h = h'
        · subst he; rw [hl] at hc; cases hc
        · simpa [lookupNode, he] using hl
      · intro r hr; exact List.mem_append_left _ hr
      · intro t ht
        simp only [List.mem_singleton] at ht
        subst ht
        exact ⟨h, m, lookupNode_cons_self _ _ _, List.mem_append_right _ (by simp)⟩

theorem runCalls_cache_mono :
    ∀ (cs : List (Qxx × Node × Node)) (s : BuildState) {h : Node} {t : Nat},
      lookupNode s.mocCache h = some t → lookupNode (runCalls cs s).2.mocCache h = some t := by
  intro cs
  induction cs with
  | nil => intro s h t hl; exact hl
  | cons c cs ih =>
      intro s h t hl
      exact ih _ (createMocTask_cache_mono c.1 s c.2.1 c.2.2 hl)

theorem runCalls_cache_none :
    ∀ (cs : List (Qxx × Node × Node)) (s : BuildState) {h : Node},
      (∀ c ∈ cs, c.2.1 ≠ h) → lookupNode s.mocCache h = none →
      lookupNode (runCalls cs s).2.mocCache h = none := by
  intro cs
  induction cs with
  | nil => intro s h _ hl; exact hl
  | cons c cs ih =>
      intro s h hk hl
      exact ih _ (fun c' hc' => hk c' (List.mem_cons_of_mem _ hc'))
        (createMocTask_cache_none c.1 s c.2.1 c.2.2 (hk c (List.mem_cons_self c cs)) hl)

theorem runCalls_wf :
    ∀ (cs : List (Qxx × Node × Node)) (s : BuildState),
      WFState s → WFState (runCalls cs s).2 := by
  intro cs
  induction cs with
  | nil => intro s hw; exact hw
  | cons c cs ih => intro s hw; exact ih _ (createMocTask_wf c.1 s c.2.1 c.2.2 hw)

theorem runCalls_results :
    ∀ (cs : List (Qxx × Node × Node)) (s : BuildState) {h : Node} {t : Nat},
      lookupNode s.mocCache h = some t →
      ∀ p ∈ cs.zip (runCalls cs s).1, p.1.2.1 = h → p.2 = t := by
  intro cs
  induction cs with
  | nil => intro s h t _ p hp; cases hp
  | cons c cs ih =>
      intro s h t hl p hp hkey
      rw [show runCalls (c :: cs) s =
            ((createMocTask c.1 s c.2.1 c.2.2).1 :: (runCalls cs (createMocTask c.1 s c.2.1 c.2.2).2.2).1,
             (runCalls cs (createMocTask c.1 s c.2.1 c.2.2).2.2).2) from rfl] at hp
      rcases List.mem_cons.mp hp with hp | hp
      · subst hp
        simp only at hkey
        subst hkey
        rw [createMocTask_hit c.1 s c.2.1 c.2.2 hl]
      · exact ih _ (createMocTask_cache_mono c.1 s c.2.1 c.2.2 hl) p hp hkey

theorem sigClear_node (b : Bool) (q : Qxx) : (sigClear b q).node = q.node := by
  cases b <;> rfl

theorem sigClear_includesNodes (b : Bool) (q : Qxx) :
    (sigClear b q).includesNodes = q.includesNodes := by
  cases b <;> rfl

theorem sigClear_rawDeps (b : Bool) (q : Qxx) : (sigClear b q).rawDeps = q.rawDeps := by
  cases b <;> rfl

theorem sigClear_runAfter (b : Bool) (q : Qxx) : (sigClear b q).runAfter = q.runAfter := by
  cases b <;> rfl

theorem sigClear_mocDone (b : Bool) (q : Qxx) : (sigClear b q).mocDone = q.mocDone := by
  cases b <;> rfl

theorem mocLoop_cons (fsys : Fsys) (incNodes : List String) (d : String)
    (ds seen : List String) (ms : List Nat) (q : Qxx) (s : BuildState) :
    mocLoop fsys incNodes (d :: ds) seen ms q s =
      (if pyEndsMoc d = false then mocLoop fsys incNodes ds seen ms q s
       else if seen.contains d then mocLoop fsys incNodes ds seen ms q s
       else
         match resolveMoc fsys q.node incNodes d with
         | some h =>
             let r := createMocTask q s h (changeExt h ".moc")
             mocLoop fsys incNodes ds (d :: seen) (ms ++ [r.1]) r.2.1 r.2.2
         | none => ⟨some (mocErrMsg d), d :: seen, ms, q, s⟩) := rfl

theorem mocLoop_q (fsys : Fsys) (incNodes : List String) :
    ∀ (ds seen : List String) (ms : List Nat) (q : Qxx) (s : BuildState),
      (mocLoop fsys incNodes ds seen ms q s).q = q := by
  intro ds
  induction ds with
  | nil => intro seen ms q s; rfl
  | cons d ds ih =>
      intro seen ms q s
      rw [mocLoop_cons]
      by_cases h1 : pyEndsMoc d = false
      · rw [if_pos h1]; exact ih _ _ _ _
      · rw [if_neg h1]
        by_cases h2 : seen.contains d = true
        · rw [if_pos h2]; exact ih _ _ _ _
        · rw [if_neg h2]
          cases hr : resolveMoc fsys q.node incNodes d with
          | some h => rw [ih]; exact createMocTask_q q s h (changeExt h ".moc")
          | none => rfl

theorem mocLoop_extends (fsys : Fsys) (incNodes : List String) :
    ∀ (ds seen : List String) (ms : List Nat) (q : Qxx) (s : BuildState),
      ∃ new, ExtendsBy s (mocLoop fsys incNodes ds seen ms q s).s new := by
  intro ds
  induction ds with
  | nil => intro seen ms q s; exact ⟨[], ExtendsBy_rfl s⟩
  | cons d ds ih =>
      intro seen ms q s
      rw [mocLoop_cons]
      by_cases h1 : pyEndsMoc d = false
      · rw [if_pos h1]; exact ih _ _ _ _
      · rw [if_neg h1]
        by_cases h2 : seen.contains d = true
        · rw [if_pos h2]; exact ih _ _ _ _
        · rw [if_neg h2]
          cases hr : resolveMoc fsys q.node incNodes d with
          | some h =>
              obtain ⟨n₁, e₁⟩ := createMocTask_extends q s h (changeExt h ".moc")
              obtain ⟨n₂, e₂⟩ := ih (d :: seen)
                (ms ++ [(createMocTask q s h (changeExt h ".moc")).1])
                (createMocTask q s h (changeExt h ".moc")).2.1
                (createMocTask q s h (changeExt h ".moc")).2.2
              exact ⟨n₁ ++ n₂, ExtendsBy_trans e₁ e₂⟩
          | none => exact ⟨[], ExtendsBy_rfl s⟩

theorem mocLoop_append_ok (fsys : Fsys) (incNodes : List String) :
    ∀ (l₁ l₂ seen : List String) (ms : List Nat) (q : Qxx) (s : BuildState) (r : LoopRes),
      mocLoop fsys incNodes l₁ seen ms q s = r → r.err = none →
      mocLoop fsys incNodes (l₁ ++ l₂) seen ms q s =
        mocLoop fsys incNodes l₂ r.seen r.tasks r.q r.s := by
  intro l₁
  induction l₁ with
  | nil =>
      intro l₂ seen ms q s r heq _
      subst heq; rfl
  | cons d l₁ ih =>
      intro l₂ seen ms q s r heq hErr
      rw [mocLoop_cons] at heq
      rw [List.cons_append, mocLoop_cons]
      by_cases h1 : pyEndsMoc d = false
      · rw [if_pos h1] at heq ⊢; exact ih _ _ _ _ _ _ heq hErr
      · rw [if_neg h1] at heq ⊢
        by_cases h2 : seen.contains d = true
        · rw [if_pos h2] at heq ⊢; exact ih _ _ _ _ _ _ heq hErr
        · rw [if_neg h2] at heq ⊢
          cases hr : resolveMoc fsys q.node incNodes d with
          | some h =>
              rw [hr] at heq
              dsimp only at heq ⊢
              exact ih _ _ _ _ _ _ heq hErr
          | none =>
              rw [hr] at heq
              subst heq
              exact Option.noConfusion hErr

theorem searchExts_none (fsys : Fsys) (x base2 : String) :
    ∀ es : List String, (∀ e ∈ es, fsys x (base2 ++ e) = none) →
      searchExts fsys x base2 es = none := by
  intro es
  induction es with
  | nil => intro _; rfl
  | cons e es ih =>
      intro hall
      have he : fsys x (base2 ++ e) = none := hall e (List.mem_cons_self e es)
      simp only [searchExts, he]
      exact ih (fun e' he' => hall e' (List.mem_cons_of_mem _ he'))

theorem searchExts_first (fsys : Fsys) (x base2 : String) :
    ∀ (es₁ : List String) (e : String) (es₂ : List String) (h : Node),
      (∀ e' ∈ es₁, fsys x (base2 ++ e') = none) → fsys x (base2 ++ e) = some h →
      searchExts fsys x base2 (es₁ ++ e :: es₂) = some h := by
  intro es₁
  induction es₁ with
  | nil =>
      intro e es₂ h _ hhit
      simp only [List.nil_append, searchExts, hhit]
  | cons e' es₁ ih =>
      intro e es₂ h hmiss hhit
      have he' : fsys x (base2 ++ e') = none := hmiss e' (List.mem_cons_self e' es₁)
      simp only [List.cons_append, searchExts, he']
      exact ih e es₂ h (fun a ha => hmiss a (List.mem_cons_of_mem _ ha)) hhit

theorem searchDirs_first (fsys : Fsys) (base2 : String) :
    ∀ (ds₁ : List String) (x : String) (ds₂ : List String) (h : Node),
      (∀ d' ∈ ds₁, ∀ e ∈ MOC_H, fsys d' (base2 ++ e) = none) →
      searchExts fsys x base2 MOC_H = some h →
      searchDirs fsys base2 (ds₁ ++ x :: ds₂) = some h := by
  intro ds₁
  induction ds₁ with
  | nil =>
      intro x ds₂ h _ hhit
      simp only [List.nil_append, searchDirs, hhit]
  | cons d' ds₁ ih =>
      intro x ds₂ h hmiss hhit
      have hd' : searchExts fsys d' base2 MOC_H = none :=
        searchExts_none fsys d' base2 MOC_H (hmiss d' (List.mem_cons_self d' ds₁))
      simp only [List.cons_append, searchDirs, hd']
      exact ih x ds₂ h (fun a ha => hmiss a (List.mem_cons_of_mem _ ha)) hhit

theorem addMocTasks_loop (fsys : Fsys) (sigOk : Bool) (q : Qxx) (s : BuildState) :
    addMocTasks fsys sigOk q s =
      (match
          (mocLoop fsys (q.node.dir :: q.includesNodes) q.rawDeps [] [] (sigClear sigOk q) s).err
        with
       | some e =>
          (some e,
            (mocLoop fsys (q.node.dir :: q.includesNodes) q.rawDeps [] [] (sigClear sigOk q) s).q,
            (mocLoop fsys (q.node.dir :: q.includesNodes) q.rawDeps [] [] (sigClear sigOk q) s).s)
       | none =>
          (none,
            { (mocLoop fsys (q.node.dir :: q.includesNodes) q.rawDeps [] [] (sigClear sigOk q) s).q
              with
              runAfter :=
                (mocLoop fsys (q.node.dir :: q.includesNodes) q.rawDeps [] []
                      (sigClear sigOk q) s).q.runAfter ++
                  (mocLoop fsys (q.node.dir :: q.includesNodes) q.rawDeps [] []
                      (sigClear sigOk q) s).tasks
              mocDone := 1 },
            (mocLoop fsys (q.node.dir :: q.includesNodes) q.rawDeps [] []
                (sigClear sigOk q) s).s)) := by
  simp only [addMocTasks, sigClear_node, sigClear_includesNodes, sigClear_rawDeps]

theorem processEvents_append : ∀ (l₁ l₂ : List SaxEvent) (st : HState),
    processEvents (l₁ ++ l₂) st = processEvents l₂ (processEvents l₁ st) := by
  intro l₁
  induction l₁ with
  | nil => intro l₂ st; rfl
  | cons e l₁ ih =>
      intro l₂ st
      simp only [List.cons_append, processEvents]
      exact ih _ _

theorem saxStep_start_ne (st : HState) (n : String) (a : List (String × String))
    (h : ¬n = "file") : saxStep st (SaxEvent.startEl n a) = st := by
  simp [saxStep, h]

theorem saxStep_end_ne (st : HState) (n : String) (h : ¬n = "file") :
    saxStep st (SaxEvent.endEl n) = st := by
  simp [saxStep, h]

mutual
theorem ffProcT : ∀ (t : XTree) (b f : List String), fileFreeT t = true →
    processEvents (emitT t) ⟨b, f⟩ = ⟨b ++ textsT t, f⟩
  | XTree.text s, b, f, _ => by
      simp [emitT, processEvents, saxStep, textsT]
  | XTree.elem n a c, b, f, hff => by
      simp only [fileFreeT, Bool.and_eq_true] at hff
      obtain ⟨h1, h2⟩ := hff
      have hn : ¬n = "file" := by simpa using h1
      show processEvents (SaxEvent.startEl n a :: (emitF c ++ [SaxEvent.endEl n])) ⟨b, f⟩ = _
      rw [processEvents, saxStep_start_ne _ _ _ hn, processEvents_append, ffProcF c b f h2]
      simp [processEvents, saxStep_end_ne _ _ hn, textsT]
theorem ffProcF : ∀ (c : XForest) (b f : List String), fileFreeF c = true →
    processEvents (emitF c) ⟨b, f⟩ = ⟨b ++ textsF c, f⟩
  | XForest.nil, b, f, _ => by
      simp [emitF, processEvents, textsF]
  | XForest.cons t rest, b, f, hff => by
      simp only [fileFreeF, Bool.and_eq_true] at hff
      obtain ⟨h1, h2⟩ := hff
      show processEvents (emitT t ++ emitF rest) ⟨b, f⟩ = _
      rw [processEvents_append, ffProcT t b f h1, ffProcF rest _ f h2]
      simp [textsF]
end

mutual
theorem bufAfterT_ff : ∀ (t : XTree) (b : List String), fileFreeT t = true →
    bufAfterT t b = b ++ textsT t
  | XTree.text s, b, _ => by simp [bufAfterT, textsT]
  | XTree.elem n a c, b, hff => by
      simp only [fileFreeT, Bool.and_eq_true] at hff
      obtain ⟨h1, h2⟩ := hff
      have hn : ¬n = "file" := by simpa using h1
      simp only [bufAfterT, if_neg hn, textsT]
      exact bufAfterF_ff c b h2
theorem bufAfterF_ff : ∀ (c : XForest) (b : List String), fileFreeF c = true →
    bufAfterF c b = b ++ textsF c
  | XForest.nil, b, _ => by simp [bufAfterF, textsF]
  | XForest.cons t rest, b, hff => by
      simp only [fileFreeF, Bool.and_eq_true] at hff
      obtain ⟨h1, h2⟩ := hff
      simp only [bufAfterF, textsF]
      rw [bufAfterT_ff t b h1, bufAfterF_ff rest _ h2, List.append_assoc]
end

mutual
theorem wfProcT : ∀ (t : XTree) (b f : List String), wfT t = true →
    processEvents (emitT t) ⟨b, f⟩ = ⟨bufAfterT t b, f ++ specFilesT t⟩
  | XTree.text s, b, f, _ => by
      simp [emitT, processEvents, saxStep, bufAfterT, specFilesT]
  | XTree.elem n a c, b, f, hwf => by
      by_cases hn : n = "file"
      · subst hn
        simp only [wfT, if_pos rfl] at hwf
        show processEvents (SaxEvent.startEl "file" a :: (emitF c ++ [SaxEvent.endEl "file"]))
            ⟨b, f⟩ = _
        rw [processEvents]
        have hstart : saxStep ⟨b, f⟩ (SaxEvent.startEl "file" a) = ⟨[], f⟩ := by
          simp [saxStep]
        rw [hstart, processEvents_append, ffProcF c [] f hwf]
        have hend :
            processEvents [SaxEvent.endEl "file"] ⟨[] ++ textsF c, f⟩ =
              ⟨textsF c, f ++ [String.join (textsF c)]⟩ := by
          simp [processEvents, saxStep]
        rw [hend]
        simp only [bufAfterT, if_pos rfl, specFilesT]
        rw [bufAfterF_ff c [] hwf]
        simp
      · simp only [wfT, if_neg hn] at hwf
        show processEvents (SaxEvent.startEl n a :: (emitF c ++ [SaxEvent.endEl n])) ⟨b, f⟩ = _
        rw [processEvents, saxStep_start_ne _ _ _ hn, processEvents_append, wfProcF c b f hwf]
        simp [processEvents, saxStep_end_ne _ _ hn, bufAfterT, if_neg hn, specFilesT]
theorem wfProcF : ∀ (c : XForest) (b f : List String), wfF c = true →
    processEvents (emitF c) ⟨b, f⟩ = ⟨bufAfterF c b, f ++ specFilesF c⟩
  | XForest.nil, b, f, _ => by
      simp [emitF, processEvents, bufAfterF, specFilesF]
  | XForest.cons t rest, b, f, hwf => by
      simp only [wfF, Bool.and_eq_true] at hwf
      obtain ⟨h1, h2⟩ := hwf
      show processEvents (emitT t ++ emitF rest) ⟨b, f⟩ = _
      rw [processEvents_append, wfProcT t b f h1, wfProcF rest _ _ h2]
      simp [bufAfterF, specFilesF]
end

/-- Claim C2: on a cache hit `create_moc_task` returns the cached task with
the shared state unchanged — and, contrary to the claim, the caller's
`cache_sig` attribute is NOT discarded: the `delattr` sits in a `try`/`else`
clause that never runs because the `try` block returns.  The theorem
evaluates the code on a hit: the caller comes back bit-for-bit identical,
`cache_sig` included. -/
theorem create_moc_task_hit_keeps_cache_sig (q : Qxx) (s : BuildState) (h m : Node) (t : Nat)
    (hc : lookupNode s.mocCache h = some t) :
    createMocTask q s h m = (t, q, s) ∧
      (createMocTask q s h m).2.1.cacheSig = q.cacheSig :=
  ⟨createMocTask_hit q s h m hc, by rw [createMocTask_hit q s h m hc]⟩

/-- Witness for C2: a concrete hit on the cached header `src/foo.h` by a
caller whose `cache_sig` is `some 7`; the call returns task 0 and the
signature survives. -/
theorem create_moc_task_hit_keeps_cache_sig_witness :
    lookupNode sHit.mocCache ⟨"src", "foo.h"⟩ = some 0 ∧
    (createMocTask qBar sHit ⟨"src", "foo.h"⟩ ⟨"src", "foo.moc"⟩ = (0, qBar, sHit) ∧
      (createMocTask qBar sHit ⟨"src", "foo.h"⟩ ⟨"src", "foo.moc"⟩).2.1.cacheSig =
        qBar.cacheSig) ∧
    qBar.cacheSig = some 7 :=
  ⟨by decide,
   create_moc_task_hit_keeps_cache_sig qBar sHit ⟨"src", "foo.h"⟩ ⟨"src", "foo.moc"⟩ 0
     (by decide),
   by decide⟩

/-- Claim C4: a directive whose base name equals the scanning source's own
base name resolves to the source node itself; the file system is
universally quantified, so no directory or include-path lookup can have
been consulted. -/
theorem resolve_moc_own_base (fsys : Fsys) (node : Node) (incNodes : List String) (d : String)
    (hbase : pyDropRight4 d = pyStem node.name) :
    resolveMoc fsys node incNodes d = some node := by
  simp [resolveMoc, hbase]

/-- Witness for C4: `bar.moc` scanned from `src/bar.cpp` resolves to the
source node even over an empty file system. -/
theorem resolve_moc_own_base_witness :
    pyDropRight4 "bar.moc" = pyStem "bar.cpp" ∧
      resolveMoc fsNone ⟨"src", "bar.cpp"⟩ ["src", "inc"] "bar.moc" =
        some ⟨"src", "bar.cpp"⟩ :=
  ⟨by decide, resolve_moc_own_base fsNone ⟨"src", "bar.cpp"⟩ ["src", "inc"] "bar.moc" (by decide)⟩

/-- Claim C5: for a directive whose base name differs from the source's,
resolution scans the source's directory followed by the declared include
directories in order and, within each directory, the extensions in the
fixed order `.h`, `.hpp`, `.hxx`, `.hh`; the first existing file wins. -/
theorem resolve_moc_search_order (fsys : Fsys) (node : Node) (incs : List String) (d : String)
    (ds₁ : List String) (x : String) (ds₂ : List String)
    (es₁ : List String) (e : String) (es₂ : List String) (h : Node)
    (hne : ¬ pyDropRight4 d = pyStem node.name)
    (hdirs : node.dir :: incs = ds₁ ++ x :: ds₂)
    (hexts : MOC_H = es₁ ++ e :: es₂)
    (hm1 : ∀ d' ∈ ds₁, ∀ e' ∈ MOC_H, fsys d' (pyDropRight4 d ++ e') = none)
    (hm2 : ∀ e' ∈ es₁, fsys x (pyDropRight4 d ++ e') = none)
    (hhit : fsys x (pyDropRight4 d ++ e) = some h) :
    resolveMoc fsys node (node.dir :: incs) d = some h := by
  simp only [resolveMoc]
  rw [if_neg hne, hdirs]
  exact searchDirs_first fsys (pyDropRight4 d) ds₁ x ds₂ h hm1
    (by rw [hexts]; exact searchExts_first fsys x (pyDropRight4 d) es₁ e es₂ h hm2 hhit)

/-- Witness for C5: with `inc1/foo.hpp`, `inc1/foo.hxx` and `inc2/foo.h`
present and the search order `src`, `inc1`, `inc2`, the directive
`foo.moc` from `src/bar.cpp` resolves to `inc1/foo.hpp`: the first
directory with any match wins, and within it `.hpp` beats `.hxx`. -/
theorem resolve_moc_search_order_witness :
    (¬ pyDropRight4 "foo.moc" = pyStem "bar.cpp") ∧
      resolveMoc fsC5 ⟨"src", "bar.cpp"⟩ ("src" :: ["inc1", "inc2"]) "foo.moc" =
        some ⟨"inc1", "foo.hpp"⟩ :=
  ⟨by decide,
   resolve_moc_search_order fsC5 ⟨"src", "bar.cpp"⟩ ["inc1", "inc2"] "foo.moc"
     ["src"] "inc1" ["inc2"] [".h"] ".hpp" [".hxx", ".hh"] ⟨"inc1", "foo.hpp"⟩
     (by decide) rfl rfl (by decide) (by decide) (by decide)⟩

/-- Claim C6: when the directive loop reaches a `.moc` entry that matches
neither the own-base-name rule nor any directory/extension candidate,
`add_moc_tasks` raises the fatal error immediately, and the message names
the unresolved directive (it contains the directive verbatim). -/
theorem add_moc_tasks_unresolved_raises (fsys : Fsys) (sigOk : Bool) (q : Qxx) (s : BuildState)
    (pre post : List String) (d : String) (r : LoopRes)
    (hdeps : q.rawDeps = pre ++ d :: post)
    (hloop : mocLoop fsys (q.node.dir :: q.includesNodes) pre [] [] (sigClear sigOk q) s = r)
    (hok : r.err = none)
    (hmoc : pyEndsMoc d = true)
    (hnew : r.seen.contains d = false)
    (hres : resolveMoc fsys q.node (q.node.dir :: q.includesNodes) d = none) :
    (addMocTasks fsys sigOk q s).1 = some (mocErrMsg d) ∧
      ∃ a b, mocErrMsg d = a ++ d ++ b := by
  have hq : r.q = sigClear sigOk q := by
    rw [← hloop]; exact mocLoop_q fsys _ pre [] [] _ s
  constructor
  · rw [addMocTasks_loop, hdeps,
      mocLoop_append_ok fsys _ pre (d :: post) [] [] (sigClear sigOk q) s r hloop hok,
      mocLoop_cons]
    rw [if_neg (by simp only [hmoc]; decide)]
    rw [if_neg (by simp only [hnew]; decide)]
    rw [hq, sigClear_node, hres]
  · exact ⟨"No source found for " ++ pyQuote, pyQuote ++ " which is a moc file", by
      simp [mocErrMsg, String.append_assoc]⟩

/-- Witness for C6: the single directive `nope.moc`, unresolvable over an
empty file system, makes `add_moc_tasks` raise the message naming it. -/
theorem add_moc_tasks_unresolved_raises_witness :
    pyEndsMoc "nope.moc" = true ∧
    ((addMocTasks fsNone true qNope s0).1 = some (mocErrMsg "nope.moc") ∧
      ∃ a b, mocErrMsg "nope.moc" = a ++ "nope.moc" ++ b) :=
  ⟨by decide,
   add_moc_tasks_unresolved_raises fsNone true qNope s0 [] [] "nope.moc"
     ⟨none, [], [], sigClear true qNope, s0⟩ rfl rfl rfl (by decide) rfl (by decide)⟩

/-- Claim C7, counterexample: the generated-source name for `foo.h` at unit
index 0 is `moc_foo.0.cpp`, not the claimed `generated_foo.0.cpp`. -/
theorem process_mocs_generated_name_counterexample :
    (process_mocs 0 [⟨"src", "foo.h"⟩] []).1 = ["moc_foo.0.cpp"] ∧
      ¬ (process_mocs 0 [⟨"src", "foo.h"⟩] []).1 = ["generated_foo.0.cpp"] := by
  decide

/-- Claim C7, amended: with the name scheme `moc_<base>.<idx>.cpp`, two
units in the same directory declaring `moc=['foo.h']` at indices 0 and 1
get the distinct file names `moc_foo.0.cpp` and `moc_foo.1.cpp`, each
appended to its unit's source list, with the moc task created directly
(the function never touches the shared moc cache). -/
theorem process_mocs_moc_names (d : String) (src₀ src₁ : List String) :
    process_mocs 0 [⟨d, "foo.h"⟩] src₀ =
        (src₀ ++ ["moc_foo.0.cpp"], [(⟨d, "foo.h"⟩, ⟨d, "moc_foo.0.cpp"⟩)]) ∧
    process_mocs 1 [⟨d, "foo.h"⟩] src₁ =
        (src₁ ++ ["moc_foo.1.cpp"], [(⟨d, "foo.h"⟩, ⟨d, "moc_foo.1.cpp"⟩)]) ∧
    ¬ ("moc_foo.0.cpp" : String) = "moc_foo.1.cpp" :=
  ⟨rfl, rfl, by decide⟩

/-- Claim C8: on any well-formed resource manifest (no `file` element
nested in another, as in the `.qrc` format) the handler's collected path
list is exactly one string per `file` element in document order, each the
concatenation of all character chunks between that element's start and end
events. -/
theorem xml_handler_collects_file_texts (t : XTree) (hwf : wfT t = true) :
    (processEvents (emitT t) ⟨[], []⟩).files = specFilesT t := by
  rw [wfProcT t [] [] hwf]
  exact List.nil_append _

/-- Witness for C8: the manifest with entries `a.png` and `sub/b.png` (the
latter delivered in two chunks) parses to exactly those two paths in
order. -/
theorem xml_handler_collects_file_texts_witness :
    wfT qrcW = true ∧
      (processEvents (emitT qrcW) ⟨[], []⟩).files = ["a.png", "sub/b.png"] :=
  ⟨by decide, by rw [xml_handler_collects_file_texts qrcW (by decide)]; decide⟩

/-- Claim C9: the manifest text `qm2rcc.run` writes for the catalogs
`x.qm`, `y.qm` is exactly the RCC skeleton with one `file` line per
catalog, in input order. -/
theorem qm2rcc_manifest_text :
    qm2rccRun ["x.qm", "y.qm"] =
      "<!DOCTYPE RCC><RCC version=\"1.0\">\n<qresource>\n<file>x.qm</file>\n<file>y.qm</file>\n</qresource>\n</RCC>" :=
  rfl

/-- Claim C1: starting from a state whose cache has no entry for header
`h`, after any sequence of `create_moc_task` calls with other keys, the
first call with key `h` constructs a fresh task (not previously
registered), registers it, injects it at the front of the outstanding
queue bumping the total — and every later call with key `h`, by any
caller, returns that same task. -/
theorem create_moc_task_dedup (s₀ s₁ : BuildState) (q q'' : Qxx) (h m : Node) (t : Nat)
    (s₂ : BuildState) (pre post : List (Qxx × Node × Node))
    (hwf : WFState s₀)
    (h₀ : lookupNode s₀.mocCache h = none)
    (hpre : ∀ c ∈ pre, c.2.1 ≠ h)
    (hs₁ : (runCalls pre s₀).2 = s₁)
    (hcall : createMocTask q s₁ h m = (t, q'', s₂)) :
    lookupNode s₂.mocCache h = some t ∧ t ∉ s₁.genTasks ∧ t ∈ s₂.genTasks ∧
    s₂.outstanding = t :: s₁.outstanding ∧ s₂.total = s₁.total + 1 ∧
    ∀ p ∈ post.zip (runCalls post s₂).1, p.1.2.1 = h → p.2 = t := by
  subst hs₁
  have h₁ : lookupNode (runCalls pre s₀).2.mocCache h = none :=
    runCalls_cache_none pre s₀ hpre h₀
  have hw₁ : WFState (runCalls pre s₀).2 := runCalls_wf pre s₀ hwf
  rw [createMocTask_miss q _ h m h₁] at hcall
  simp only [Prod.mk.injEq] at hcall
  obtain ⟨ht, hq'', hs₂⟩ := hcall
  subst ht
  subst hs₂
  refine ⟨lookupNode_cons_self _ _ _, ?_, ?_, rfl, rfl, ?_⟩
  · intro hmem
    exact absurd (hw₁.1 _ hmem) (Nat.lt_irrefl _)
  · exact List.mem_append_right _ (by simp)
  · intro p hp hkey
    exact runCalls_results post _ (lookupNode_cons_self _ _ _) p hp hkey

/-- Witness for C1: after creating a task for `src/b.h`, the first call
with `src/a.h` creates task 1; a later call sequence containing `src/c.h`
and then `src/a.h` again returns task 1 for the repeated key. -/
theorem create_moc_task_dedup_witness :
    WFState s0 ∧
    (lookupNode (createMocTask qDummy (runCalls preCalls s0).2 ⟨"src", "a.h"⟩
          ⟨"src", "a.moc"⟩).2.2.mocCache ⟨"src", "a.h"⟩ =
        some (createMocTask qDummy (runCalls preCalls s0).2 ⟨"src", "a.h"⟩
          ⟨"src", "a.moc"⟩).1 ∧
      (createMocTask qDummy (runCalls preCalls s0).2 ⟨"src", "a.h"⟩ ⟨"src", "a.moc"⟩).1 ∉
        (runCalls preCalls s0).2.genTasks ∧
      (createMocTask qDummy (runCalls preCalls s0).2 ⟨"src", "a.h"⟩ ⟨"src", "a.moc"⟩).1 ∈
        (createMocTask qDummy (runCalls preCalls s0).2 ⟨"src", "a.h"⟩
          ⟨"src", "a.moc"⟩).2.2.genTasks ∧
      (createMocTask qDummy (runCalls preCalls s0).2 ⟨"src", "a.h"⟩
          ⟨"src", "a.moc"⟩).2.2.outstanding =
        (createMocTask qDummy (runCalls preCalls s0).2 ⟨"src", "a.h"⟩ ⟨"src", "a.moc"⟩).1 ::
          (runCalls preCalls s0).2.outstanding ∧
      (createMocTask qDummy (runCalls preCalls s0).2 ⟨"src", "a.h"⟩
          ⟨"src", "a.moc"⟩).2.2.total =
        (runCalls preCalls s0).2.total + 1 ∧
      ∀ p ∈ postCalls.zip
          (runCalls postCalls
            (createMocTask qDummy (runCalls preCalls s0).2 ⟨"src", "a.h"⟩
              ⟨"src", "a.moc"⟩).2.2).1,
        p.1.2.1 = ⟨"src", "a.h"⟩ →
          p.2 = (createMocTask qDummy (runCalls preCalls s0).2 ⟨"src", "a.h"⟩
            ⟨"src", "a.moc"⟩).1) :=
  ⟨⟨by decide, by decide, by decide, by decide, by decide⟩,
   create_moc_task_dedup s0 (runCalls preCalls s0).2 qDummy
     (createMocTask qDummy (runCalls preCalls s0).2 ⟨"src", "a.h"⟩ ⟨"src", "a.moc"⟩).2.1
     ⟨"src", "a.h"⟩ ⟨"src", "a.moc"⟩
     (createMocTask qDummy (runCalls preCalls s0).2 ⟨"src", "a.h"⟩ ⟨"src", "a.moc"⟩).1
     (createMocTask qDummy (runCalls preCalls s0).2 ⟨"src", "a.h"⟩ ⟨"src", "a.moc"⟩).2.2
     preCalls postCalls
     ⟨by decide, by decide, by decide, by decide, by decide⟩
     (by decide) (by decide) rfl rfl⟩

/-- Claim C10: whenever `add_moc_tasks` raises, the failing task's
`run_after` and `moc_done` are left untouched, while the build state has
been extended by exactly the moc tasks created for the directives
processed before the failure: each sits in the moc cache and the task
records, all are registered in the generator task list, they occupy the
front of the outstanding queue, and the producer's total grew by their
number (`ExtendsBy`). -/
theorem add_moc_tasks_error_partial (fsys : Fsys) (sigOk : Bool) (q : Qxx) (s : BuildState)
    (e : String) (q' : Qxx) (s' : BuildState)
    (hmd : q.mocDone = 0)
    (hrun : addMocTasks fsys sigOk q s = (some e, q', s')) :
    q'.runAfter = q.runAfter ∧ q'.mocDone = 0 ∧ ∃ new, ExtendsBy s s' new := by
  rw [addMocTasks_loop] at hrun
  cases hE :
      (mocLoop fsys (q.node.dir :: q.includesNodes) q.rawDeps [] [] (sigClear sigOk q) s).err with
  | none =>
      rw [hE] at hrun
      simp at hrun
  | some e₀ =>
      rw [hE] at hrun
      simp only [Prod.mk.injEq] at hrun
      obtain ⟨he, hq', hs'⟩ := hrun
      have hq : (mocLoop fsys (q.node.dir :: q.includesNodes) q.rawDeps [] []
          (sigClear sigOk q) s).q = sigClear sigOk q :=
        mocLoop_q fsys (q.node.dir :: q.includesNodes) q.rawDeps [] [] (sigClear sigOk q) s
      refine ⟨?_, ?_, ?_⟩
      · rw [← hq', hq, sigClear_runAfter]
      · rw [← hq', hq, sigClear_mocDone, hmd]
      · obtain ⟨new, hext⟩ :=
          mocLoop_extends fsys (q.node.dir :: q.includesNodes) q.rawDeps [] []
            (sigClear sigOk q) s
        rw [← hs']
        exact ⟨new, hext⟩

/-- Witness for C10: scanning `a.moc` then the unresolvable `b.moc`
raises, yet the state keeps the task created for `src/a.h`, while the
caller's `run_after` and `moc_done` are unchanged. -/
theorem add_moc_tasks_error_partial_witness :
    qAB.mocDone = 0 ∧
    ((addMocTasks fsC10 true qAB s0).2.1.runAfter = qAB.runAfter ∧
      (addMocTasks fsC10 true qAB s0).2.1.mocDone = 0 ∧
      ∃ new, ExtendsBy s0 (addMocTasks fsC10 true qAB s0).2.2 new) :=
  ⟨rfl,
   add_moc_tasks_error_partial fsC10 true qAB s0 (mocErrMsg "b.moc")
     (addMocTasks fsC10 true qAB s0).2.1 (addMocTasks fsC10 true qAB s0).2.2 rfl rfl⟩

/-- Claim C3, counterexample: a `qxx` task with `moc_done = 0`, no
predecessors and an empty scan result gets a normal runnable answer
(`RUN_ME`), not the claimed ask-again-later deferral —
`qxx.runnable_status` ends by delegating to the base runnable-status, and
with no new incomplete predecessor that does not defer. -/
theorem runnable_status_no_directives_counterexample :
    (∃ q' s', qxxRunnableStatus fsNone true true qNoDeps s0 =
        Except.ok (TStatus.runMe, q', s')) ∧
      ¬ (TStatus.runMe = TStatus.askLater) :=
  ⟨⟨{ qNoDeps with cacheSig := none, mocDone := 1 }, s0, rfl⟩, by decide⟩

/-- Claim C3, amended: for a `qxx` task with `moc_done = 0` all of whose
current predecessors have completed, a runnable-status query runs
discovery: every newly obtained moc task is recorded in `run_after`,
`moc_done` becomes 1, and the answer is the base runnable status over the
updated predecessor set — which is the ask-again-later deferral exactly
when some newly obtained moc task has not yet run (in particular whenever
one was freshly created), and otherwise proceeds to the normal
stale-or-skip decision. -/
theorem runnable_status_discovery (fsys : Fsys) (sigOk stale : Bool) (q : Qxx) (s : BuildState)
    (r : LoopRes)
    (hmd : q.mocDone = 0)
    (hpr : ∀ u ∈ q.runAfter, hasrun s u = true)
    (hloop : mocLoop fsys (q.node.dir :: q.includesNodes) q.rawDeps [] [] (sigClear sigOk q) s = r)
    (hok : r.err = none) :
    qxxRunnableStatus fsys sigOk stale q s =
      Except.ok
        (baseRunnableStatus r.s
            { r.q with runAfter := r.q.runAfter ++ r.tasks, mocDone := 1 } stale,
          { r.q with runAfter := r.q.runAfter ++ r.tasks, mocDone := 1 }, r.s) ∧
    ({ r.q with runAfter := r.q.runAfter ++ r.tasks, mocDone := 1 } : Qxx).mocDone = 1 ∧
    (∀ u ∈ r.tasks,
      u ∈ ({ r.q with runAfter := r.q.runAfter ++ r.tasks, mocDone := 1 } : Qxx).runAfter) ∧
    (baseRunnableStatus r.s { r.q with runAfter := r.q.runAfter ++ r.tasks, mocDone := 1 } stale
        = TStatus.askLater ↔ ∃ u ∈ r.tasks, hasrun s u = false) := by
  have hq : r.q = sigClear sigOk q := by
    rw [← hloop]
    exact mocLoop_q fsys (q.node.dir :: q.includesNodes) q.rawDeps [] [] (sigClear sigOk q) s
  obtain ⟨new, hext⟩ :=
    mocLoop_extends fsys (q.node.dir :: q.includesNodes) q.rawDeps [] [] (sigClear sigOk q) s
  rw [hloop] at hext
  have hhr : r.s.hasrunList = s.hasrunList := hext.2.2.2.2.1
  have hfun : (fun u => !(hasrun r.s u)) = (fun u => !(hasrun s u)) := by
    funext u
    simp [hasrun, hhr]
  have hany : q.runAfter.any (fun u => !(hasrun s u)) = false := by
    cases hA : q.runAfter.any (fun u => !(hasrun s u)) with
    | false => rfl
    | true =>
        exfalso
        rw [List.any_eq_true] at hA
        obtain ⟨u, hu, hpu⟩ := hA
        rw [hpr u hu] at hpu
        exact absurd hpu (by decide)
  have hadd : addMocTasks fsys sigOk q s =
      (none, { r.q with runAfter := r.q.runAfter ++ r.tasks, mocDone := 1 }, r.s) := by
    rw [addMocTasks_loop, hloop, hok]
  have hA : ({ r.q with runAfter := r.q.runAfter ++ r.tasks, mocDone := 1 } : Qxx).runAfter.any
      (fun u => !(hasrun r.s u)) = r.tasks.any (fun u => !(hasrun s u)) := by
    show (r.q.runAfter ++ r.tasks).any (fun u => !(hasrun r.s u)) = _
    rw [hfun, List.any_append, hq, sigClear_runAfter, hany, Bool.false_or]
  refine ⟨?_, rfl, ?_, ?_⟩
  · simp only [qxxRunnableStatus]
    rw [if_neg (by simp [hmd])]
    rw [if_neg (by simp only [hany]; decide)]
    rw [hadd]
  · intro u hu
    exact List.mem_append_right _ hu
  · simp only [baseRunnableStatus, hA]
    cases hT : r.tasks.any (fun u => !(hasrun s u)) with
    | true =>
        rw [if_pos rfl]
        rw [List.any_eq_true] at hT
        obtain ⟨u, hu, hpu⟩ := hT
        exact iff_of_true rfl ⟨u, hu, by simpa using hpu⟩
    | false =>
        rw [if_neg (by decide)]
        refine iff_of_false ?_ ?_
        · cases stale <;> simp
        · rintro ⟨u, hu, hru⟩
          rw [List.any_eq_false] at hT
          have := hT u hu
          simp [hru] at this

/-- Witness for C3: the scan found `foo.moc`, resolved against `fsC3` to
`src/foo.h`, creating moc task 0; the query defers (the freshly created
task has not run). -/
theorem runnable_status_discovery_witness :
    qFooMoc.mocDone = 0 ∧
    (qxxRunnableStatus fsC3 true true qFooMoc s0 =
        Except.ok
          (baseRunnableStatus rFoo.s
              { rFoo.q with runAfter := rFoo.q.runAfter ++ rFoo.tasks, mocDone := 1 } true,
            { rFoo.q with runAfter := rFoo.q.runAfter ++ rFoo.tasks, mocDone := 1 }, rFoo.s) ∧
      ({ rFoo.q with runAfter := rFoo.q.runAfter ++ rFoo.tasks, mocDone := 1 } : Qxx).mocDone = 1 ∧
      (∀ u ∈ rFoo.tasks,
        u ∈
          ({ rFoo.q with runAfter := rFoo.q.runAfter ++ rFoo.tasks, mocDone := 1 } : Qxx).runAfter) ∧
      (baseRunnableStatus rFoo.s
          { rFoo.q with runAfter := rFoo.q.runAfter ++ rFoo.tasks, mocDone := 1 } true
          = TStatus.askLater ↔ ∃ u ∈ rFoo.tasks, hasrun s0 u = false)) ∧
    baseRunnableStatus rFoo.s
        { rFoo.q with runAfter := rFoo.q.runAfter ++ rFoo.tasks, mocDone := 1 } true
      = TStatus.askLater :=
  ⟨rfl,
   runnable_status_discovery fsC3 true true qFooMoc s0 rFoo rfl (by decide) rfl rfl,
   by decide⟩

